import Mathlib

/-!
Verification of the `errdecode` error-classification engine.

The embedding models the Go package shallowly:
- Go `error` interface values become the inductive `GoError`; each value
  produced by `errors.New` is modelled as `GoError.base id msg` where `id`
  stands for the value's reference identity (two distinct instances with the
  same text carry distinct ids), `GoError.nilErr` models the nil error, and
  `GoError.matched code wrapped msg` models the package's `*matchedError`.
- Go maps (`map[int]string`, `map[int]MatcherFunc`, `map[error]int`) become
  association lists with overwriting insertion (`upsert`): lookup returns the
  most recent write, exactly as a Go map does.  Go's unspecified map iteration
  order over `codeToMatcher` is determinised to insertion order; no theorem
  below depends on the order between distinct predicate entries.
- `newRuleIndex`, `newDefaultEncoder`, `New`, `Decoder.Translate` and the
  `Message` / `Encoder` options are translated directly from the source.
-/

namespace Errdecode

/-- Go `error` values.  `base id msg` is a sentinel created by `errors.New`
(`id` models reference identity), `nilErr` is the nil error, and
`matched code wrapped msg` is the package's `*matchedError` decorator. -/
inductive GoError where
  | nilErr : GoError
  | base (id : Nat) (msg : String) : GoError
  | matched (code : Int) (wrapped : GoError) (msg : String) : GoError
deriving DecidableEq

/-- `Code()` of a `ClassifiedError`; 0 for values that are not classified. -/
def GoError.Code : GoError → Int
  | .matched c _ _ => c
  | _ => 0

/-- `Unwrap()` of a `ClassifiedError`; identity on other values. -/
def GoError.Unwrap : GoError → GoError
  | .matched _ w _ => w
  | e => e

/-- The `Error()` display string of an error value (`""` for the nil error,
on which Go would panic; no theorem relies on that corner). -/
def GoError.Error : GoError → String
  | .nilErr => ""
  | .base _ m => m
  | .matched _ _ m => m

/-- Whether a value is a `*matchedError`, i.e. satisfies the type assertion
`err.(ClassifiedError)` among the values this package produces. -/
def isClassifiedErr : GoError → Bool
  | .matched _ _ _ => true
  | _ => false

/-- `errors.Is`-style identity check walking the `Unwrap` chain. -/
def errIs : GoError → GoError → Bool
  | .matched c w m, target => (GoError.matched c w m = target) || errIs w target
  | e, target => e = target

/-- Association-list lookup, modelling Go map read `m[k]`. -/
def alookup {α β : Type} [DecidableEq α] : List (α × β) → α → Option β
  | [], _ => none
  | (k, v) :: rest, k1 => if k1 = k then some v else alookup rest k1

/-- Overwriting insertion, modelling Go map write `m[k] = v`. -/
def upsert {α β : Type} [DecidableEq α] : List (α × β) → α → β → List (α × β)
  | [], k, v => [(k, v)]
  | (k0, v0) :: rest, k, v =>
      if k0 = k then (k, v) :: rest else (k0, v0) :: upsert rest k v

/-- `MatcherFunc` from `decode.go`. -/
abbrev MatcherFunc := GoError → Bool

/-- `EncoderFunc` from `decode.go`. -/
abbrev EncoderFunc := GoError → Int × String

/-- `MessageTranslatorFunc` from `decode.go`. -/
abbrev MessageTranslatorFunc := String → String

/-- `Rule` from `decode.go`: `Match` is `none` when the Go field is nil. -/
structure Rule where
  Code : Int
  Message : String
  Errors : List GoError
  Match : Option MatcherFunc

/-- `ruleIndex` from the source: the three derived maps. -/
structure ruleIndex where
  codeToMatcher : List (Int × MatcherFunc)
  codeToMessage : List (Int × String)
  errToCode : List (GoError × Int)

/-- The inner loop of `newRuleIndex` over one rule's `Errors` slice. -/
def insErrs (m : List (GoError × Int)) (es : List GoError) (c : Int) :
    List (GoError × Int) :=
  es.foldl (fun acc e => upsert acc e c) m

/-- One iteration of the `for _, rule := range rs` loop in `newRuleIndex`. -/
def ruleStep (idx : ruleIndex) (rule : Rule) : ruleIndex :=
  { codeToMatcher :=
      match rule.Match with
      | some f => upsert idx.codeToMatcher rule.Code f
      | none => idx.codeToMatcher
    codeToMessage := upsert idx.codeToMessage rule.Code rule.Message
    errToCode := insErrs idx.errToCode rule.Errors rule.Code }

/-- `newRuleIndex` from the source. -/
def newRuleIndex (rs : List Rule) : ruleIndex :=
  rs.foldl ruleStep ⟨[], [], []⟩

/-- The `for code, matcher := range idx.codeToMatcher` scan of the default
encoder, determinised to list order. -/
def firstMatcher : List (Int × MatcherFunc) → GoError → Option Int
  | [], _ => none
  | (c, f) :: rest, e => if f e then some c else firstMatcher rest e

/-- `newDefaultEncoder` from the source: identity lookup first, then the
predicate scan, else the `(0, "")` unclassified sentinel.  A missing
`codeToMessage` entry reads as `""`, Go's zero value. -/
def newDefaultEncoder (rs : List Rule) : EncoderFunc :=
  let idx := newRuleIndex rs
  fun err =>
    match alookup idx.errToCode err with
    | some code => (code, (alookup idx.codeToMessage code).getD "")
    | none =>
        match firstMatcher idx.codeToMatcher err with
        | some code => (code, (alookup idx.codeToMessage code).getD "")
        | none => (0, "")

/-- `Decoder` from the source. -/
structure Decoder where
  encoder : EncoderFunc
  msgTranslator : MessageTranslatorFunc

/-- `defaultMessageTranslator` from the source. -/
def defaultMessageTranslator (msg : String) : String := msg

/-- `Option` from the source (renamed: `Option` is taken by Lean core). -/
abbrev DecoderOption := Decoder → Decoder

/-- The `Message` option from the source. -/
def Message (t : MessageTranslatorFunc) : DecoderOption :=
  fun d => { d with msgTranslator := t }

/-- The `Encoder` option from the source. -/
def Encoder (enc : EncoderFunc) : DecoderOption :=
  fun d => { d with encoder := enc }

/-- `New` from the source: default configuration, then options in order. -/
def New (rs : List Rule) (options : List DecoderOption) : Decoder :=
  options.foldl (fun d option => option d)
    ⟨newDefaultEncoder rs, defaultMessageTranslator⟩

/-- `Decoder.Translate` from the source. -/
def Decoder.Translate (d : Decoder) (err : GoError) : GoError :=
  if (d.encoder err).1 = 0 then err
  else GoError.matched (d.encoder err).1 err (d.msgTranslator (d.encoder err).2)

/-! ### Association-list (Go map) lemmas -/

theorem alookup_upsert {α β : Type} [DecidableEq α] (l : List (α × β)) (k k1 : α) (v : β) :
    alookup (upsert l k v) k1 = if k1 = k then some v else alookup l k1 := by
  induction l with
  | nil => simp [upsert, alookup]
  | cons p rest ih =>
    obtain ⟨k0, v0⟩ := p
    by_cases h0 : k0 = k
    · subst h0
      by_cases h1 : k1 = k0 <;> simp [upsert, alookup, h1]
    · simp only [upsert, if_neg h0, alookup, ih]
      by_cases h1 : k1 = k0
      · subst h1
        rw [if_pos rfl, if_pos rfl, if_neg h0]
      · rw [if_neg h1, if_neg h1]

theorem mem_upsert {α β : Type} [DecidableEq α] {l : List (α × β)} {k : α} {v : β}
    {p : α × β} (h : p ∈ upsert l k v) : p = (k, v) ∨ p ∈ l := by
  induction l with
  | nil => simpa [upsert] using h
  | cons q rest ih =>
    obtain ⟨k0, v0⟩ := q
    by_cases h0 : k0 = k
    · subst h0
      rw [show upsert ((k0, v0) :: rest) k0 v = (k0, v) :: rest from by
        simp [upsert]] at h
      rcases List.mem_cons.mp h with h | h
      · exact Or.inl h
      · exact Or.inr (List.mem_cons_of_mem _ h)
    · rw [show upsert ((k0, v0) :: rest) k v = (k0, v0) :: upsert rest k v from by
        simp [upsert, h0]] at h
      rcases List.mem_cons.mp h with h | h
      · exact Or.inr (by simp [h])
      · rcases ih h with h2 | h2
        · exact Or.inl h2
        · exact Or.inr (List.mem_cons_of_mem _ h2)

theorem alookup_mem {α β : Type} [DecidableEq α] {l : List (α × β)} {k : α} {v : β}
    (h : alookup l k = some v) : (k, v) ∈ l := by
  induction l with
  | nil => simp [alookup] at h
  | cons q rest ih =>
    obtain ⟨k0, v0⟩ := q
    by_cases h0 : k = k0
    · subst h0
      have h2 : some v0 = some v := by simpa [alookup] using h
      have h3 : v0 = v := Option.some.inj h2
      subst h3
      exact List.mem_cons_self _ _
    · simp only [alookup, if_neg h0] at h
      exact List.mem_cons_of_mem _ (ih h)

theorem alookup_insErrs (m : List (GoError × Int)) (es : List GoError) (c : Int)
    (x : GoError) :
    alookup (insErrs m es c) x = if x ∈ es then some c else alookup m x := by
  induction es generalizing m with
  | nil => simp [insErrs]
  | cons e es ih =>
    have hstep : insErrs m (e :: es) c = insErrs (upsert m e c) es c := rfl
    rw [hstep, ih (upsert m e c), alookup_upsert]
    by_cases h1 : x ∈ es
    · simp [h1]
    · by_cases h2 : x = e <;> simp [h1, h2]

theorem mem_insErrs {m : List (GoError × Int)} {es : List GoError} {c : Int}
    {q : GoError × Int} (h : q ∈ insErrs m es c) : q ∈ m ∨ q.2 = c := by
  induction es generalizing m with
  | nil => exact Or.inl (by simpa [insErrs] using h)
  | cons e es ih =>
    have h2 : q ∈ insErrs (upsert m e c) es c := h
    rcases ih h2 with h3 | h3
    · rcases mem_upsert h3 with h4 | h4
      · exact Or.inr (by simp [h4])
      · exact Or.inl h4
    · exact Or.inr h3

/-! ### Rule-index compilation lemmas -/

theorem errToCode_foldl_not_mem (rs : List Rule) (idx : ruleIndex) (e : GoError)
    (h : ∀ r ∈ rs, e ∉ r.Errors) :
    alookup (rs.foldl ruleStep idx).errToCode e = alookup idx.errToCode e := by
  induction rs generalizing idx with
  | nil => rfl
  | cons r rs ih =>
    have hr : e ∉ r.Errors := h r (List.mem_cons_self r rs)
    rw [List.foldl_cons, ih _ (fun r2 h2 => h r2 (List.mem_cons_of_mem _ h2))]
    show alookup (insErrs idx.errToCode r.Errors r.Code) e = alookup idx.errToCode e
    rw [alookup_insErrs]
    exact if_neg hr

theorem codeToMessage_foldl_not_code (rs : List Rule) (idx : ruleIndex) (c : Int)
    (h : ∀ r ∈ rs, r.Code ≠ c) :
    alookup (rs.foldl ruleStep idx).codeToMessage c = alookup idx.codeToMessage c := by
  induction rs generalizing idx with
  | nil => rfl
  | cons r rs ih =>
    have hr : r.Code ≠ c := h r (List.mem_cons_self r rs)
    rw [List.foldl_cons, ih _ (fun r2 h2 => h r2 (List.mem_cons_of_mem _ h2))]
    show alookup (upsert idx.codeToMessage r.Code r.Message) c = alookup idx.codeToMessage c
    rw [alookup_upsert]
    exact if_neg (fun h2 => hr h2.symm)

theorem codeToMatcher_foldl_pres (rs : List Rule) (idx : ruleIndex) (c : Int)
    (h : ∀ r ∈ rs, r.Code = c → r.Match = none) :
    alookup (rs.foldl ruleStep idx).codeToMatcher c = alookup idx.codeToMatcher c := by
  induction rs generalizing idx with
  | nil => rfl
  | cons r rs ih =>
    rw [List.foldl_cons, ih _ (fun r2 h2 hc => h r2 (List.mem_cons_of_mem _ h2) hc)]
    rcases hm : r.Match with _ | f
    · show alookup (ruleStep idx r).codeToMatcher c = alookup idx.codeToMatcher c
      simp [ruleStep, hm]
    · have hc : r.Code ≠ c := fun hcc => by
        simpa [hm] using h r (List.mem_cons_self r rs) hcc
      show alookup (ruleStep idx r).codeToMatcher c = alookup idx.codeToMatcher c
      simp only [ruleStep, hm]
      rw [alookup_upsert]
      exact if_neg (fun h2 => hc h2.symm)

theorem mem_foldl_codeToMatcher (rs : List Rule) (idx : ruleIndex)
    (p : Int × MatcherFunc) (h : p ∈ (rs.foldl ruleStep idx).codeToMatcher) :
    p ∈ idx.codeToMatcher ∨ ∃ r ∈ rs, r.Match = some p.2 := by
  induction rs generalizing idx with
  | nil => exact Or.inl h
  | cons r rs ih =>
    rw [List.foldl_cons] at h
    rcases ih (ruleStep idx r) h with h2 | h2
    · rcases hm : r.Match with _ | f
      · exact Or.inl (by simpa [ruleStep, hm] using h2)
      · have h3 : p ∈ upsert idx.codeToMatcher r.Code f := by
          simpa [ruleStep, hm] using h2
        rcases mem_upsert h3 with h4 | h4
        · refine Or.inr ⟨r, List.mem_cons_self r rs, ?_⟩
          rw [h4]
          exact hm
        · exact Or.inl h4
    · obtain ⟨r2, hr2, hm2⟩ := h2
      exact Or.inr ⟨r2, List.mem_cons_of_mem _ hr2, hm2⟩

theorem firstMatcher_none (l : List (Int × MatcherFunc)) (e : GoError)
    (h : ∀ p ∈ l, p.2 e = false) : firstMatcher l e = none := by
  induction l with
  | nil => rfl
  | cons p rest ih =>
    obtain ⟨c, f⟩ := p
    have h1 : f e = false := h (c, f) (List.mem_cons_self _ _)
    show (if f e then some c else firstMatcher rest e) = none
    rw [h1, if_neg (by simp)]
    exact ih (fun q hq => h q (List.mem_cons_of_mem _ hq))

/-! ### Default encoder behaviour -/

theorem default_encoder_unmatched (rs : List Rule) (e : GoError)
    (hE : ∀ r ∈ rs, e ∉ r.Errors)
    (hM : ∀ r ∈ rs, ∀ f, r.Match = some f → f e = false) :
    newDefaultEncoder rs e = (0, "") := by
  have h1 : alookup (newRuleIndex rs).errToCode e = none := by
    rw [newRuleIndex, errToCode_foldl_not_mem rs _ e hE]
    rfl
  have h2 : firstMatcher (newRuleIndex rs).codeToMatcher e = none := by
    apply firstMatcher_none
    intro p hp
    rcases mem_foldl_codeToMatcher rs _ p hp with h3 | ⟨r, hr, hm⟩
    · exact absurd h3 (by simp)
    · exact hM r hr p.2 hm
  simp [newDefaultEncoder, h1, h2]

theorem errToCode_identity (rs1 rs2 : List Rule) (r : Rule) (e : GoError)
    (hmem : e ∈ r.Errors) (hlast : ∀ r2 ∈ rs2, e ∉ r2.Errors) :
    alookup (newRuleIndex (rs1 ++ r :: rs2)).errToCode e = some r.Code := by
  rw [newRuleIndex, List.foldl_append, List.foldl_cons,
    errToCode_foldl_not_mem rs2 _ e hlast]
  show alookup (insErrs _ r.Errors r.Code) e = some r.Code
  rw [alookup_insErrs]
  exact if_pos hmem

theorem codeToMessage_last (rs1 rs2 : List Rule) (r : Rule)
    (h : ∀ r2 ∈ rs2, r2.Code ≠ r.Code) :
    alookup (newRuleIndex (rs1 ++ r :: rs2)).codeToMessage r.Code = some r.Message := by
  rw [newRuleIndex, List.foldl_append, List.foldl_cons,
    codeToMessage_foldl_not_code rs2 _ r.Code h]
  show alookup (upsert _ r.Code r.Message) r.Code = some r.Message
  rw [alookup_upsert]
  simp

theorem default_encoder_identity (rs1 rs2 : List Rule) (r : Rule) (e : GoError)
    (hmem : e ∈ r.Errors) (hlast : ∀ r2 ∈ rs2, e ∉ r2.Errors)
    (hcode : ∀ r2 ∈ rs2, r2.Code ≠ r.Code) :
    newDefaultEncoder (rs1 ++ r :: rs2) e = (r.Code, r.Message) := by
  have h1 := errToCode_identity rs1 rs2 r e hmem hlast
  have h2 := codeToMessage_last rs1 rs2 r hcode
  simp [newDefaultEncoder, h1, h2]

/-! ### Decoder-level helper lemmas -/

theorem default_translate_unmatched (rs : List Rule) (e : GoError)
    (hE : ∀ r ∈ rs, e ∉ r.Errors)
    (hM : ∀ r ∈ rs, ∀ f, r.Match = some f → f e = false) :
    (New rs []).Translate e = e := by
  have h0 : ((New rs []).encoder e).1 = 0 := by
    show (newDefaultEncoder rs e).1 = 0
    rw [default_encoder_unmatched rs e hE hM]
  simp [Decoder.Translate, h0]

theorem default_translate_identity (rs1 rs2 : List Rule) (r : Rule) (e : GoError)
    (hmem : e ∈ r.Errors) (hlast : ∀ r2 ∈ rs2, e ∉ r2.Errors)
    (hcode : ∀ r2 ∈ rs2, r2.Code ≠ r.Code) (hnz : r.Code ≠ 0) :
    (New (rs1 ++ r :: rs2) []).Translate e = GoError.matched r.Code e r.Message := by
  have henc : (New (rs1 ++ r :: rs2) []).encoder e = (r.Code, r.Message) :=
    default_encoder_identity rs1 rs2 r e hmem hlast hcode
  show (if ((New (rs1 ++ r :: rs2) []).encoder e).1 = 0 then e else _) = _
  rw [henc, if_neg hnz]
  rfl

/-! ### Well-formedness of the compiled index -/

/-- Every code keyed in `codeToMatcher` or stored as a value in `errToCode`
has an entry in `codeToMessage`. -/
def wfIndex (idx : ruleIndex) : Prop :=
  (∀ p ∈ idx.codeToMatcher, (alookup idx.codeToMessage p.1).isSome = true) ∧
  (∀ q ∈ idx.errToCode, (alookup idx.codeToMessage q.2).isSome = true)

theorem alookup_upsert_isSome {α β : Type} [DecidableEq α] (l : List (α × β))
    (k k1 : α) (v : β) (h : (alookup l k1).isSome = true) :
    (alookup (upsert l k v) k1).isSome = true := by
  rw [alookup_upsert]
  by_cases h1 : k1 = k
  · simp [h1]
  · simpa [h1] using h

theorem alookup_upsert_self {α β : Type} [DecidableEq α] (l : List (α × β))
    (k : α) (v : β) : alookup (upsert l k v) k = some v := by
  rw [alookup_upsert]
  simp

theorem wf_ruleStep (idx : ruleIndex) (r : Rule) (h : wfIndex idx) :
    wfIndex (ruleStep idx r) := by
  obtain ⟨hm, he⟩ := h
  constructor
  · intro p hp
    show (alookup (upsert idx.codeToMessage r.Code r.Message) p.1).isSome = true
    rcases hmr : r.Match with _ | f
    · have hp2 : p ∈ idx.codeToMatcher := by simpa [ruleStep, hmr] using hp
      exact alookup_upsert_isSome _ _ _ _ (hm p hp2)
    · have hp2 : p ∈ upsert idx.codeToMatcher r.Code f := by
        simpa [ruleStep, hmr] using hp
      rcases mem_upsert hp2 with h3 | h3
      · rw [h3]
        simp [alookup_upsert_self]
      · exact alookup_upsert_isSome _ _ _ _ (hm p h3)
  · intro q hq
    show (alookup (upsert idx.codeToMessage r.Code r.Message) q.2).isSome = true
    have hq2 : q ∈ insErrs idx.errToCode r.Errors r.Code := hq
    rcases mem_insErrs hq2 with h3 | h3
    · exact alookup_upsert_isSome _ _ _ _ (he q h3)
    · rw [h3, alookup_upsert_self]
      rfl

theorem wfIndex_foldl (rs : List Rule) (idx : ruleIndex) (h : wfIndex idx) :
    wfIndex (rs.foldl ruleStep idx) := by
  induction rs generalizing idx with
  | nil => exact h
  | cons r rs ih =>
    rw [List.foldl_cons]
    exact ih _ (wf_ruleStep idx r h)

theorem wf_newRuleIndex (rs : List Rule) : wfIndex (newRuleIndex rs) := by
  apply wfIndex_foldl
  constructor
  · intro p hp
    exact absurd hp (by simp)
  · intro q hq
    exact absurd hq (by simp)

theorem errIs_self (e : GoError) : errIs e e = true := by
  cases e <;> simp [errIs]

/-! ### Claim theorems -/

/-- C1: whenever the configured classifier returns code 0, `Translate`
returns its input unchanged; in particular, for a default-built decoder,
any error value absent from every rule's `Errors` and rejected by every
rule's matcher passes through `Translate` as the identical value. -/
theorem c1_pass_through :
    (∀ (d : Decoder) (e : GoError), (d.encoder e).1 = 0 → d.Translate e = e) ∧
    (∀ (rs : List Rule) (e : GoError),
      (∀ r ∈ rs, e ∉ r.Errors) →
      (∀ r ∈ rs, ∀ f, r.Match = some f → f e = false) →
      (New rs []).Translate e = e) := by
  constructor
  · intro d e h
    simp [Decoder.Translate, h]
  · exact fun rs e hE hM => default_translate_unmatched rs e hE hM

/-- Concrete instance of C1: an unlisted, unmatched error value passes
through a one-rule decoder unchanged. -/
theorem c1_witness :
    (New [⟨5, "m", [GoError.base 1 "a"], none⟩] []).Translate (GoError.base 2 "b")
      = GoError.base 2 "b" :=
  c1_pass_through.2 [⟨5, "m", [GoError.base 1 "a"], none⟩] (GoError.base 2 "b")
    (by decide)
    (by
      intro r hr f hf
      simp at hr
      subst hr
      simp at hf)

/-- C2 counterexample: with rules `[{1,"a",[e1,e2]}, {2,"b",[e1]}, {1,"c",[]}]`
the rule `{1,"a",[e1,e2]}` is in the set, yet `Translate e1` carries code 2
(the later rule re-claimed `e1`) and `Translate e2` displays `"c"` (a later
rule sharing code 1 overwrote the message), refuting the claim as stated. -/
theorem c2_counterexample :
    ((New [⟨1, "a", [GoError.base 1 "e1", GoError.base 2 "e2"], none⟩,
           ⟨2, "b", [GoError.base 1 "e1"], none⟩,
           ⟨1, "c", [], none⟩] []).Translate (GoError.base 1 "e1")).Code ≠ 1 ∧
    ((New [⟨1, "a", [GoError.base 1 "e1", GoError.base 2 "e2"], none⟩,
           ⟨2, "b", [GoError.base 1 "e1"], none⟩,
           ⟨1, "c", [], none⟩] []).Translate (GoError.base 2 "e2")).Error ≠ "a" := by
  constructor
  · decide
  · decide

/-- C2 (amended): for a rule `{code≠0, msg, knownErrors=[e1,e2]}` such that no
later rule lists `e1` or `e2` and no later rule bears the same code,
`Translate e1` and `Translate e2` (default classifier and translator) are
Classified Errors with `Code() = code` and `Error() = msg`. -/
theorem c2_last_claim_wins (rs1 rs2 : List Rule) (r : Rule) (e1 e2 : GoError)
    (hnz : r.Code ≠ 0) (hE : r.Errors = [e1, e2])
    (h2 : ∀ r2 ∈ rs2, e1 ∉ r2.Errors ∧ e2 ∉ r2.Errors ∧ r2.Code ≠ r.Code) :
    isClassifiedErr ((New (rs1 ++ r :: rs2) []).Translate e1) = true ∧
    ((New (rs1 ++ r :: rs2) []).Translate e1).Code = r.Code ∧
    ((New (rs1 ++ r :: rs2) []).Translate e1).Error = r.Message ∧
    isClassifiedErr ((New (rs1 ++ r :: rs2) []).Translate e2) = true ∧
    ((New (rs1 ++ r :: rs2) []).Translate e2).Code = r.Code ∧
    ((New (rs1 ++ r :: rs2) []).Translate e2).Error = r.Message := by
  have hm1 : e1 ∈ r.Errors := by rw [hE]; simp
  have hm2 : e2 ∈ r.Errors := by rw [hE]; simp
  have ht1 := default_translate_identity rs1 rs2 r e1 hm1
    (fun r2 h => (h2 r2 h).1) (fun r2 h => (h2 r2 h).2.2) hnz
  have ht2 := default_translate_identity rs1 rs2 r e2 hm2
    (fun r2 h => (h2 r2 h).2.1) (fun r2 h => (h2 r2 h).2.2) hnz
  rw [ht1, ht2]
  exact ⟨rfl, rfl, rfl, rfl, rfl, rfl⟩

/-- Concrete instance of amended C2, mirroring the spec's end-to-end example:
a single rule `{1001, "error.client", [c1, c2]}`. -/
theorem c2_witness :
    isClassifiedErr ((New [⟨1001, "error.client",
        [GoError.base 1 "c1", GoError.base 2 "c2"], none⟩] []).Translate
        (GoError.base 1 "c1")) = true ∧
    ((New [⟨1001, "error.client", [GoError.base 1 "c1", GoError.base 2 "c2"],
        none⟩] []).Translate (GoError.base 1 "c1")).Code = 1001 ∧
    ((New [⟨1001, "error.client", [GoError.base 1 "c1", GoError.base 2 "c2"],
        none⟩] []).Translate (GoError.base 1 "c1")).Error = "error.client" ∧
    isClassifiedErr ((New [⟨1001, "error.client",
        [GoError.base 1 "c1", GoError.base 2 "c2"], none⟩] []).Translate
        (GoError.base 2 "c2")) = true ∧
    ((New [⟨1001, "error.client", [GoError.base 1 "c1", GoError.base 2 "c2"],
        none⟩] []).Translate (GoError.base 2 "c2")).Code = 1001 ∧
    ((New [⟨1001, "error.client", [GoError.base 1 "c1", GoError.base 2 "c2"],
        none⟩] []).Translate (GoError.base 2 "c2")).Error = "error.client" :=
  c2_last_claim_wins [] [] ⟨1001, "error.client",
    [GoError.base 1 "c1", GoError.base 2 "c2"], none⟩
    (GoError.base 1 "c1") (GoError.base 2 "c2") (by decide) rfl (by simp)

/-- C3 counterexample: `e` sits in rule `{1,"a",[e]}` and also satisfies the
predicate of rule `{1,"b",pred}`; the classifier returns code 1 (the identity
rule's) but message `"b"` (the predicate rule's, which shares the code), so
"the identity rule's code and message, never the predicate rule's" fails. -/
theorem c3_counterexample :
    newDefaultEncoder [⟨1, "a", [GoError.base 1 "x"], none⟩,
        ⟨1, "b", [], some (fun _ => true)⟩] (GoError.base 1 "x") = (1, "b") ∧
    newDefaultEncoder [⟨1, "a", [GoError.base 1 "x"], none⟩,
        ⟨1, "b", [], some (fun _ => true)⟩] (GoError.base 1 "x") ≠ (1, "a") := by
  constructor
  · decide
  · decide

/-- C3 (amended): identity lookup takes precedence over predicate lookup —
if `e` lies in an identity rule's `Errors`, no later rule re-claims `e`, and
no later rule shares the identity rule's code, then even when some rule's
predicate matches `e`, the classifier returns the identity rule's code and
message; the predicate rule's code never wins. -/
theorem c3_identity_precedence (rs1 rs2 : List Rule) (rid : Rule) (e : GoError)
    (hmem : e ∈ rid.Errors)
    (hlast : ∀ r2 ∈ rs2, e ∉ r2.Errors)
    (hcode : ∀ r2 ∈ rs2, r2.Code ≠ rid.Code)
    (hpred : ∃ rp ∈ rs1 ++ rid :: rs2, ∃ f, rp.Match = some f ∧ f e = true) :
    newDefaultEncoder (rs1 ++ rid :: rs2) e = (rid.Code, rid.Message) :=
  default_encoder_identity rs1 rs2 rid e hmem hlast hcode

/-- Concrete instance of amended C3: `e` is listed by rule `{1,"a",[e]}` and
matched by the catch-all predicate of rule `{2,"b",always}`; the identity
rule wins. -/
theorem c3_witness :
    newDefaultEncoder ([] ++ (⟨1, "a", [GoError.base 1 "x"], none⟩ : Rule) ::
        [⟨2, "b", [], some (fun _ => true)⟩]) (GoError.base 1 "x") = (1, "a") :=
  c3_identity_precedence [] [⟨2, "b", [], some (fun _ => true)⟩]
    ⟨1, "a", [GoError.base 1 "x"], none⟩ (GoError.base 1 "x")
    (by decide) (by decide) (by decide)
    ⟨⟨2, "b", [], some (fun _ => true)⟩,
      List.mem_cons_of_mem _ (List.mem_cons_self _ _),
      fun _ => true, rfl, rfl⟩

/-- C4: whenever the configured classifier yields a non-zero code, the value
`Translate` returns is a Classified Error whose `Unwrap()` is exactly the
input, and the `errors.Is`-style chain check against the input succeeds. -/
theorem c4_unwrap_roundtrip (d : Decoder) (e : GoError)
    (h : (d.encoder e).1 ≠ 0) :
    (d.Translate e).Unwrap = e ∧ isClassifiedErr (d.Translate e) = true ∧
      errIs (d.Translate e) e = true := by
  have ht : d.Translate e
      = GoError.matched (d.encoder e).1 e (d.msgTranslator (d.encoder e).2) := by
    simp [Decoder.Translate, h]
  rw [ht]
  refine ⟨rfl, rfl, ?_⟩
  simp [errIs, errIs_self]

/-- Concrete instance of C4: decorating a matched sentinel and unwrapping
yields it back, and the chain check succeeds. -/
theorem c4_witness :
    ((New [⟨5, "m", [GoError.base 1 "a"], none⟩] []).Translate
        (GoError.base 1 "a")).Unwrap = GoError.base 1 "a" ∧
    isClassifiedErr ((New [⟨5, "m", [GoError.base 1 "a"], none⟩] []).Translate
        (GoError.base 1 "a")) = true ∧
    errIs ((New [⟨5, "m", [GoError.base 1 "a"], none⟩] []).Translate
        (GoError.base 1 "a")) (GoError.base 1 "a") = true :=
  c4_unwrap_roundtrip (New [⟨5, "m", [GoError.base 1 "a"], none⟩] [])
    (GoError.base 1 "a") (by decide)

/-- C5: a caller-supplied classifier given via the `Encoder` option fully
replaces the default rule-index-backed classifier, and the resulting
`Translate` behaviour does not depend on the rule set. -/
theorem c5_encoder_override (rs rs2 : List Rule) (f : EncoderFunc) (e : GoError) :
    (New rs [Encoder f]).encoder = f ∧
      (New rs [Encoder f]).Translate e = (New rs2 [Encoder f]).Translate e :=
  ⟨rfl, rfl⟩

/-- C6: the message translator is applied only on the matched path — an error
classified as code 0 is returned as-is with its own display message, while a
non-zero classification displays the translator applied to the matched
message. -/
theorem c6_translator_scope (d : Decoder) (e : GoError) :
    ((d.encoder e).1 = 0 → d.Translate e = e ∧ (d.Translate e).Error = e.Error) ∧
    ((d.encoder e).1 ≠ 0 →
      (d.Translate e).Error = d.msgTranslator (d.encoder e).2) := by
  constructor
  · intro h
    have ht : d.Translate e = e := by simp [Decoder.Translate, h]
    exact ⟨ht, by rw [ht]⟩
  · intro h
    simp [Decoder.Translate, h, GoError.Error]

/-- Concrete instance of C6: with a constant translator, an unmatched error
keeps its own message verbatim while a matched one displays the translated
rule message. -/
theorem c6_witness :
    (New [⟨7, "key", [GoError.base 3 "raw"], none⟩]
        [Message (fun _ => "T")]).Translate (GoError.base 4 "other")
      = GoError.base 4 "other" ∧
    ((New [⟨7, "key", [GoError.base 3 "raw"], none⟩]
        [Message (fun _ => "T")]).Translate (GoError.base 3 "raw")).Error = "T" :=
  ⟨((c6_translator_scope (New [⟨7, "key", [GoError.base 3 "raw"], none⟩]
      [Message (fun _ => "T")]) (GoError.base 4 "other")).1 (by decide)).1,
    ((c6_translator_scope (New [⟨7, "key", [GoError.base 3 "raw"], none⟩]
      [Message (fun _ => "T")]) (GoError.base 3 "raw")).2 (by decide)).trans rfl⟩

/-- C7 counterexample: rules `[{1,"a",pred}, {1,"b",no-pred}]` — the last rule
bearing code 1 declares no predicate, yet after compilation a predicate (the
first rule's, still answering `true`) remains stored under code 1; only the
message obeys plain last-write-wins. -/
theorem c7_counterexample :
    (alookup (newRuleIndex [⟨1, "a", [], some (fun _ => true)⟩,
        ⟨1, "b", [], none⟩]).codeToMatcher 1).isSome = true ∧
    ((alookup (newRuleIndex [⟨1, "a", [], some (fun _ => true)⟩,
        ⟨1, "b", [], none⟩]).codeToMatcher 1).getD (fun _ => false))
        GoError.nilErr = true ∧
    alookup (newRuleIndex [⟨1, "a", [], some (fun _ => true)⟩,
        ⟨1, "b", [], none⟩]).codeToMessage 1 = some "b" := by
  refine ⟨?_, ?_, ?_⟩
  · decide
  · decide
  · decide

/-- C7 (amended): among rules sharing a code, the stored message is that of
the last such rule, and the stored predicate is that of the last such rule
that declares a predicate (a later same-code rule without a predicate leaves
the previously recorded predicate in place). -/
theorem c7_last_write_wins (rs1 rs2 : List Rule) (r : Rule) :
    ((∀ r2 ∈ rs2, r2.Code ≠ r.Code) →
      alookup (newRuleIndex (rs1 ++ r :: rs2)).codeToMessage r.Code
        = some r.Message) ∧
    (∀ f, r.Match = some f → (∀ r2 ∈ rs2, r2.Code = r.Code → r2.Match = none) →
      alookup (newRuleIndex (rs1 ++ r :: rs2)).codeToMatcher r.Code = some f) := by
  constructor
  · exact fun h => codeToMessage_last rs1 rs2 r h
  · intro f hf h
    rw [newRuleIndex, List.foldl_append, List.foldl_cons,
      codeToMatcher_foldl_pres rs2 _ r.Code h]
    show alookup ((ruleStep _ r).codeToMatcher) r.Code = some f
    simp only [ruleStep, hf]
    exact alookup_upsert_self _ _ _

/-- Concrete instance of amended C7: two rules share code 9; the second
declares both a message and a predicate and both are the ones stored. -/
theorem c7_witness :
    alookup (newRuleIndex ([⟨9, "old", [], none⟩] ++
        (⟨9, "new", [], some (fun _ => true)⟩ : Rule) :: [])).codeToMessage 9
      = some "new" ∧
    alookup (newRuleIndex ([⟨9, "old", [], none⟩] ++
        (⟨9, "new", [], some (fun _ => true)⟩ : Rule) :: [])).codeToMatcher 9
      = some (fun _ => true) :=
  ⟨(c7_last_write_wins [⟨9, "old", [], none⟩] []
      ⟨9, "new", [], some (fun _ => true)⟩).1 (by simp),
    (c7_last_write_wins [⟨9, "old", [], none⟩] []
      ⟨9, "new", [], some (fun _ => true)⟩).2 (fun _ => true) rfl (by simp)⟩

/-- C8: rule-index well-formedness — every code keyed in `codeToMatcher` or
stored as a value in `errToCode` has an entry in `codeToMessage`. -/
theorem c8_index_invariant (rs : List Rule) (c : Int)
    (h : (alookup (newRuleIndex rs).codeToMatcher c).isSome = true ∨
      ∃ e, (e, c) ∈ (newRuleIndex rs).errToCode) :
    (alookup (newRuleIndex rs).codeToMessage c).isSome = true := by
  have hwf := wf_newRuleIndex rs
  rcases h with h | ⟨e, he⟩
  · rcases Option.isSome_iff_exists.mp h with ⟨f, hf⟩
    exact hwf.1 (c, f) (alookup_mem hf)
  · exact hwf.2 (e, c) he

/-- Concrete instance of C8: code 3 appears in the matcher index, so it has a
message entry. -/
theorem c8_witness :
    (alookup (newRuleIndex [⟨3, "m", [], some (fun _ => false)⟩]).codeToMessage
        3).isSome = true :=
  c8_index_invariant [⟨3, "m", [], some (fun _ => false)⟩] 3 (Or.inl (by decide))

/-- C9: `Translate` on the nil error is total — for any decoder it returns
either nil itself or a wrapper whose `Unwrap()` is nil, and a default-built
decoder whose rules neither list nil nor match it via a predicate returns nil
unchanged. -/
theorem c9_nil_translate :
    (∀ d : Decoder, d.Translate GoError.nilErr = GoError.nilErr ∨
      (d.Translate GoError.nilErr).Unwrap = GoError.nilErr) ∧
    (∀ rs : List Rule,
      (∀ r ∈ rs, GoError.nilErr ∉ r.Errors) →
      (∀ r ∈ rs, ∀ f, r.Match = some f → f GoError.nilErr = false) →
      (New rs []).Translate GoError.nilErr = GoError.nilErr) := by
  constructor
  · intro d
    by_cases h : (d.encoder GoError.nilErr).1 = 0
    · exact Or.inl (by simp [Decoder.Translate, h])
    · right
      simp [Decoder.Translate, h, GoError.Unwrap]
  · exact fun rs hE hM => default_translate_unmatched rs GoError.nilErr hE hM

/-- Concrete instance of C9: a one-rule decoder returns the nil error
unchanged. -/
theorem c9_witness :
    (New [⟨4, "m", [GoError.base 1 "a"], none⟩] []).Translate GoError.nilErr
      = GoError.nilErr :=
  c9_nil_translate.2 [⟨4, "m", [GoError.base 1 "a"], none⟩]
    (by decide)
    (by
      intro r hr f hf
      simp at hr
      subst hr
      simp at hf)

/-- C10: a rule carrying the reserved code 0 can never produce a Classified
Error — an error listed only in such a rule's `Errors` (and matched by no
other rule) is classified as code 0, and `Translate` returns it unchanged. -/
theorem c10_code_zero_rule (rs1 rs2 : List Rule) (r : Rule) (e : GoError)
    (hzero : r.Code = 0) (hmem : e ∈ r.Errors)
    (hothers : ∀ r2, r2 ∈ rs1 ∨ r2 ∈ rs2 → e ∉ r2.Errors ∧
      ∀ f, r2.Match = some f → f e = false) :
    (newDefaultEncoder (rs1 ++ r :: rs2) e).1 = 0 ∧
    (New (rs1 ++ r :: rs2) []).Translate e = e := by
  have hlast : ∀ r2 ∈ rs2, e ∉ r2.Errors := fun r2 h => (hothers r2 (Or.inr h)).1
  have hcode : alookup (newRuleIndex (rs1 ++ r :: rs2)).errToCode e = some r.Code :=
    errToCode_identity rs1 rs2 r e hmem hlast
  have henc : (newDefaultEncoder (rs1 ++ r :: rs2) e).1 = 0 := by
    simp [newDefaultEncoder, hcode, hzero]
  refine ⟨henc, ?_⟩
  have h0 : ((New (rs1 ++ r :: rs2) []).encoder e).1 = 0 := henc
  simp [Decoder.Translate, h0]

/-- Concrete instance of C10: an error listed only under a code-0 rule passes
through `Translate` untouched. -/
theorem c10_witness :
    (newDefaultEncoder ([] ++ (⟨0, "zero", [GoError.base 6 "z"], none⟩ : Rule)
        :: []) (GoError.base 6 "z")).1 = 0 ∧
    (New ([] ++ (⟨0, "zero", [GoError.base 6 "z"], none⟩ : Rule) :: [])
        []).Translate (GoError.base 6 "z") = GoError.base 6 "z" :=
  c10_code_zero_rule [] [] ⟨0, "zero", [GoError.base 6 "z"], none⟩
    (GoError.base 6 "z") rfl (by decide)
    (by
      intro r2 h
      rcases h with h | h <;> simp at h)

end Errdecode
